import Mathlib

/-!
Verification of the qfbackend HTTP API (src/index.ts): the slugify routine,
the eight CRUD route handlers over the posts and drafts tables, and the
per-request database connection middleware, embedded shallowly as pure
Lean functions.
-/

/-- Whitespace class of the JavaScript regular expression \s: tab, line feed,
vertical tab, form feed, carriage return, space, no-break space, ogham space
mark, the en-quad..hair-space block, line and paragraph separators, narrow
no-break space, medium mathematical space, ideographic space and BOM. -/
def isWs (c : Char) : Bool :=
  decide (c.toNat = 9 ∨ c.toNat = 10 ∨ c.toNat = 11 ∨ c.toNat = 12 ∨
    c.toNat = 13 ∨ c.toNat = 32 ∨ c.toNat = 160 ∨ c.toNat = 0x1680 ∨
    (0x2000 ≤ c.toNat ∧ c.toNat ≤ 0x200A) ∨ c.toNat = 0x2028 ∨
    c.toNat = 0x2029 ∨ c.toNat = 0x202F ∨ c.toNat = 0x205F ∨
    c.toNat = 0x3000 ∨ c.toNat = 0xFEFF)

/-- Word-character class of the JavaScript regular expression \w:
ASCII letters, ASCII digits and underscore. -/
def isWordChar (c : Char) : Bool :=
  decide ((97 ≤ c.toNat ∧ c.toNat ≤ 122) ∨ (65 ≤ c.toNat ∧ c.toNat ≤ 90) ∨
    (48 ≤ c.toNat ∧ c.toNat ≤ 57) ∨ c.toNat = 95)

/-- Hyphen test, the character class of the hyphen-run regular expressions
used in slugify. -/
def isHyph (c : Char) : Bool :=
  decide (c = '-')

/-- Removal of the trailing run of characters satisfying p, the semantics of
String.prototype.replace with an end-anchored run regular expression
(one or more p-characters then end of string) and the empty replacement. -/
def dropTrail (p : Char → Bool) : List Char → List Char
  | [] => []
  | c :: cs =>
    match dropTrail p cs with
    | [] => if p c then [] else [c]
    | r => c :: r

/-- String.prototype.trim on the character list: leading and trailing
whitespace removed. -/
def trimL (l : List Char) : List Char :=
  dropTrail isWs (l.dropWhile isWs)

/-- String.prototype.toLowerCase on the character list, modelled per
character for the basic latin range (the only range the later \w filter
can keep). -/
def lowerL (l : List Char) : List Char :=
  l.map Char.toLower

theorem length_dropWhile_le (p : α → Bool) (l : List α) :
    (l.dropWhile p).length ≤ l.length := by
  induction l with
  | nil => simp [List.dropWhile]
  | cons a as ih =>
    by_cases h : p a
    · simp only [List.dropWhile, h, List.length_cons]
      omega
    · simp [List.dropWhile, h]

/-- Global replacement of every maximal run of characters satisfying p by a
single hyphen, scanning left to right: the semantics of
String.prototype.replace with /p+/g and the replacement "-".  slugify uses
it twice, once with the whitespace class (step /\s+/g to "-") and once with
the hyphen class (the global replacement of two-or-more hyphens by "-",
which leaves single hyphens unchanged and so equals run squashing
extensionally). -/
def runScan (p : Char → Bool) : List Char → List Char
  | [] => []
  | c :: cs =>
    if p c then '-' :: runScan p (cs.dropWhile p)
    else c :: runScan p cs
termination_by l => l.length
decreasing_by
  · simp only [List.length_cons]
    exact Nat.lt_succ_of_le (length_dropWhile_le p cs)
  · simp only [List.length_cons]
    exact Nat.lt_succ_self _

/-- Step 3 of slugify, the replacement /\s+/g to "-". -/
def wsRuns (l : List Char) : List Char :=
  runScan isWs l

/-- Step 4 of slugify, the removal /[^\w\-]+/g to "": only word characters
and hyphens are kept. -/
def keepWord (l : List Char) : List Char :=
  l.filter (fun c => isWordChar c || isHyph c)

/-- Step 5 of slugify, the global replacement of every run of two-or-more
hyphens by a single hyphen. -/
def collapseH (l : List Char) : List Char :=
  runScan isHyph l

/-- Step 6 of slugify, the removal /^-+/ to "". -/
def stripLead (l : List Char) : List Char :=
  l.dropWhile isHyph

/-- Step 7 of slugify, the removal of the trailing run of hyphens. -/
def stripTrail (l : List Char) : List Char :=
  dropTrail isHyph l

/-- Character-level body of slugify: the seven-step pipeline of
src/index.ts lines 51-59 in source order. -/
def slugChars (l : List Char) : List Char :=
  stripTrail (stripLead (collapseH (keepWord (wsRuns (lowerL (trimL l))))))

/-- slugify from src/index.ts lines 46-60: the falsy guard (for a string
argument, exactly the empty string) followed by the pipeline. -/
def slugify (s : String) : String :=
  if s.isEmpty then "" else String.mk (slugChars s.data)

/-- slugify as called on a possibly absent title (undefined or null in
JavaScript, both falsy): the guard returns the empty string. -/
def slugifyOpt : Option String → String
  | none => ""
  | some s => slugify s

/-!
Specification-side definitions.  The spec describes steps 3 and 5 by runs
("replace every run of one-or-more whitespace characters with a single
hyphen", "collapse every run of two-or-more consecutive hyphens into one").
runSquash is that description written as a structural recursion that decides
each character from its successor; the shared steps 1, 2, 4, 6 and 7 are
worded identically in spec and source and are reused.
-/

/-- Run-based description of the replacement of every maximal run of
characters satisfying p by a single hyphen: a character in a run is dropped
when its successor continues the run and becomes the hyphen when it ends it. -/
def runSquash (p : Char → Bool) : List Char → List Char
  | [] => []
  | [c] => if p c then ['-'] else [c]
  | c :: d :: cs =>
    if p c then
      if p d then runSquash p (d :: cs) else '-' :: runSquash p (d :: cs)
    else c :: runSquash p (d :: cs)

/-- Character-level slug pipeline as the spec words it, with the two run
steps given by runSquash. -/
def slugCharsSpec (l : List Char) : List Char :=
  stripTrail (stripLead (runSquash isHyph (keepWord (runSquash isWs (lowerL (trimL l))))))

/-- slugify as the spec words it. -/
def slugifySpec (s : String) : String :=
  if s.isEmpty then "" else String.mk (slugCharsSpec s.data)

theorem runScan_eq_runSquash (p : Char → Bool) :
    ∀ l : List Char, runScan p l = runSquash p l := by
  have key : ∀ n, ∀ l : List Char, l.length ≤ n → runScan p l = runSquash p l := by
    intro n
    induction n with
    | zero =>
      intro l hl
      have : l = [] := List.length_eq_zero.mp (Nat.le_zero.mp hl)
      subst this
      simp [runScan, runSquash]
    | succ n ih =>
      intro l hl
      match l with
      | [] => simp [runScan, runSquash]
      | [c] =>
        by_cases hc : p c
        · simp [runScan, runSquash, hc, List.dropWhile]
        · simp [runScan, runSquash, hc]
      | c :: d :: cs =>
        have hlen : (d :: cs).length ≤ n := by
          simpa [Nat.succ_le_succ_iff] using hl
        by_cases hc : p c
        · by_cases hd : p d
          · have h1 : runScan p (c :: d :: cs) = runScan p (d :: cs) := by
              simp [runScan, hc, hd, List.dropWhile]
            rw [h1, ih _ hlen]
            simp [runSquash, hc, hd]
          · have h1 : runScan p (c :: d :: cs) = '-' :: runScan p (d :: cs) := by
              simp [runScan, hc, hd, List.dropWhile]
            rw [h1, ih _ hlen]
            simp [runSquash, hc, hd]
        · have h1 : runScan p (c :: d :: cs) = c :: runScan p (d :: cs) := by
          -- the non-matching head is copied and scanning continues
            simp [runScan, hc]
          rw [h1, ih _ hlen]
          simp [runSquash, hc]
  intro l
  exact key l.length l (Nat.le_refl _)

theorem slugChars_eq_spec (l : List Char) : slugChars l = slugCharsSpec l := by
  unfold slugChars slugCharsSpec wsRuns collapseH
  rw [runScan_eq_runSquash, runScan_eq_runSquash]

theorem slugify_eq_slugifySpec (s : String) : slugify s = slugifySpec s := by
  unfold slugify slugifySpec
  rw [slugChars_eq_spec]

/-!
List lemmas about the pipeline steps, used for the output invariants and
idempotence of slugify.
-/

theorem mem_of_mem_dropWhile {p : α → Bool} {l : List α} {c : α}
    (h : c ∈ l.dropWhile p) : c ∈ l := by
  induction l with
  | nil => simpa [List.dropWhile] using h
  | cons a as ih =>
    by_cases hp : p a
    · simp only [List.dropWhile, hp] at h
      exact List.mem_cons_of_mem _ (ih h)
    · simpa [List.dropWhile, hp] using h

theorem head?_dropWhile {p : α → Bool} {l : List α} {c : α}
    (h : (l.dropWhile p).head? = some c) : p c = false := by
  induction l with
  | nil => simp [List.dropWhile] at h
  | cons a as ih =>
    by_cases hp : p a
    · simp only [List.dropWhile, hp] at h
      exact ih h
    · simp only [List.dropWhile, hp, Bool.false_eq_true, if_false, List.head?_cons,
        Option.some.injEq] at h
      subst h
      exact Bool.eq_false_iff.mpr hp

theorem chain'_dropWhile {R : α → α → Prop} {p : α → Bool} {l : List α}
    (h : l.Chain' R) : (l.dropWhile p).Chain' R := by
  induction l with
  | nil => simpa [List.dropWhile] using h
  | cons a as ih =>
    by_cases hp : p a
    · simp only [List.dropWhile, hp]
      exact ih h.tail
    · simpa [List.dropWhile, hp] using h

theorem dropWhile_eq_self_of_head {p : α → Bool} {l : List α}
    (h : ∀ c, l.head? = some c → p c = false) : l.dropWhile p = l := by
  cases l with
  | nil => rfl
  | cons a as =>
    have := h a rfl
    simp [List.dropWhile, this]

theorem mem_dropTrail {p : Char → Bool} {l : List Char} {c : Char}
    (h : c ∈ dropTrail p l) : c ∈ l := by
  induction l with
  | nil => simpa [dropTrail] using h
  | cons a as ih =>
    cases hrec : dropTrail p as with
    | nil =>
      by_cases hp : p a
      · simp [dropTrail, hrec, hp] at h
      · simp only [dropTrail, hrec, hp, Bool.false_eq_true, if_false, List.mem_singleton] at h
        subst h
        exact List.mem_cons_self _ _
    | cons x xs =>
      simp only [dropTrail, hrec] at h
      rcases List.mem_cons.mp h with h1 | h2
      · subst h1
        exact List.mem_cons_self _ _
      · exact List.mem_cons_of_mem _ (ih (by rw [hrec]; exact h2))

theorem head?_dropTrail (p : Char → Bool) (l : List Char) :
    (dropTrail p l).head? = l.head? ∨ dropTrail p l = [] := by
  cases l with
  | nil => exact Or.inl rfl
  | cons a as =>
    cases hrec : dropTrail p as with
    | nil =>
      by_cases hp : p a
      · simp [dropTrail, hrec, hp]
      · simp [dropTrail, hrec, hp]
    | cons x xs =>
      simp [dropTrail, hrec]

theorem getLast?_dropTrail {p : Char → Bool} {l : List Char} {c : Char}
    (h : (dropTrail p l).getLast? = some c) : p c = false := by
  induction l with
  | nil => simp [dropTrail] at h
  | cons a as ih =>
    cases hrec : dropTrail p as with
    | nil =>
      by_cases hp : p a
      · simp [dropTrail, hrec, hp] at h
      · simp only [dropTrail, hrec, hp, Bool.false_eq_true, if_false,
          List.getLast?_singleton, Option.some.injEq] at h
        subst h
        exact Bool.eq_false_iff.mpr hp
    | cons x xs =>
      simp only [dropTrail, hrec, List.getLast?_cons_cons] at h
      exact ih (by rw [hrec]; exact h)

theorem chain'_dropTrail {R : Char → Char → Prop} {p : Char → Bool} {l : List Char}
    (h : l.Chain' R) : (dropTrail p l).Chain' R := by
  induction l with
  | nil => simpa [dropTrail] using h
  | cons a as ih =>
    cases hrec : dropTrail p as with
    | nil =>
      by_cases hp : p a
      · simp [dropTrail, hrec, hp]
      · simp [dropTrail, hrec, hp]
    | cons x xs =>
      simp only [dropTrail, hrec]
      have htail : (dropTrail p as).Chain' R := ih h.tail
      rw [hrec] at htail
      refine List.chain'_cons'.mpr ⟨?_, htail⟩
      intro y hy
      rcases head?_dropTrail p as with heq | hemp
      · have hy2 : as.head? = some y := by
          rw [← heq, hrec]
          exact Option.mem_def.mp hy
        rcases List.chain'_cons'.mp h with ⟨hrel, _⟩
        exact hrel y (Option.mem_def.mpr hy2)
      · rw [hemp] at hrec
        cases hrec

theorem dropTrail_eq_self {p : Char → Bool} {l : List Char}
    (h : ∀ c, l.getLast? = some c → p c = false) : dropTrail p l = l := by
  induction l with
  | nil => rfl
  | cons a as ih =>
    cases as with
    | nil =>
      have := h a rfl
      simp [dropTrail, this]
    | cons b bs =>
      have hrec : dropTrail p (b :: bs) = b :: bs := by
        apply ih
        intro c hc
        exact h c (by rw [List.getLast?_cons_cons]; exact hc)
      rw [dropTrail, hrec]

theorem mem_runSquash (p : Char → Bool) :
    ∀ l c, c ∈ runSquash p l → (c ∈ l ∧ p c = false) ∨ c = '-'
  | [], c, h => by simp [runSquash] at h
  | [a], c, h => by
    by_cases hp : p a
    · simp only [runSquash, hp, if_true, List.mem_singleton] at h
      exact Or.inr h
    · simp only [runSquash, hp, Bool.false_eq_true, if_false, List.mem_singleton] at h
      subst h
      exact Or.inl ⟨List.mem_singleton.mpr rfl, Bool.eq_false_iff.mpr hp⟩
  | a :: b :: bs, c, h => by
    by_cases hpa : p a
    · by_cases hpb : p b
      · simp only [runSquash, hpa, hpb, if_true] at h
        rcases mem_runSquash p (b :: bs) c h with ⟨h1, h2⟩ | h3
        · exact Or.inl ⟨List.mem_cons_of_mem _ h1, h2⟩
        · exact Or.inr h3
      · simp only [runSquash, hpa, hpb, if_true, Bool.false_eq_true, if_false,
          List.mem_cons] at h
        rcases h with h1 | h2
        · exact Or.inr h1
        · rcases mem_runSquash p (b :: bs) c h2 with ⟨h3, h4⟩ | h5
          · exact Or.inl ⟨List.mem_cons_of_mem _ h3, h4⟩
          · exact Or.inr h5
    · simp only [runSquash, hpa, Bool.false_eq_true, if_false, List.mem_cons] at h
      rcases h with h1 | h2
      · subst h1
        exact Or.inl ⟨List.mem_cons_self _ _, Bool.eq_false_iff.mpr hpa⟩
      · rcases mem_runSquash p (b :: bs) c h2 with ⟨h3, h4⟩ | h5
        · exact Or.inl ⟨List.mem_cons_of_mem _ h3, h4⟩
        · exact Or.inr h5

theorem head?_runSquash_of_neg {p : Char → Bool} {d : Char} (ds : List Char)
    (hd : p d = false) : (runSquash p (d :: ds)).head? = some d := by
  cases ds with
  | nil => simp [runSquash, hd]
  | cons e es => simp [runSquash, hd]

theorem chain'_runSquash (p : Char → Bool) :
    ∀ l, (runSquash p l).Chain' (fun a b => ¬(p a = true ∧ p b = true))
  | [] => by simp [runSquash]
  | [a] => by
    by_cases hp : p a
    · simp [runSquash, hp]
    · simp [runSquash, hp]
  | a :: b :: bs => by
    by_cases hpa : p a
    · by_cases hpb : p b
      · simpa only [runSquash, hpa, hpb, if_true] using chain'_runSquash p (b :: bs)
      · simp only [runSquash, hpa, hpb, if_true, Bool.false_eq_true, if_false]
        refine List.chain'_cons'.mpr ⟨?_, chain'_runSquash p (b :: bs)⟩
        intro y hy
        have hyb : y = b := by
          have h2 := Option.mem_def.mp hy
          rw [head?_runSquash_of_neg bs (Bool.eq_false_iff.mpr hpb)] at h2
          exact ((Option.some.injEq _ _).mp h2).symm
        exact fun hcon => hpb (hyb ▸ hcon.2)
    · simp only [runSquash, hpa, Bool.false_eq_true, if_false]
      refine List.chain'_cons'.mpr ⟨?_, chain'_runSquash p (b :: bs)⟩
      intro y _
      exact fun hcon => hpa hcon.1

theorem runSquash_eq_self {p : Char → Bool} :
    ∀ l, (∀ c ∈ l, p c = true → c = '-') →
      l.Chain' (fun a b => ¬(p a = true ∧ p b = true)) → runSquash p l = l
  | [], _, _ => by simp [runSquash]
  | [a], hall, _ => by
    by_cases hp : p a
    · have : a = '-' := hall a (List.mem_singleton.mpr rfl) hp
      simp [runSquash, hp, this]
    · simp [runSquash, hp]
  | a :: b :: bs, hall, hch => by
    have htail : runSquash p (b :: bs) = b :: bs :=
      runSquash_eq_self (b :: bs) (fun c hc => hall c (List.mem_cons_of_mem _ hc)) hch.tail
    by_cases hpa : p a
    · have hpb : p b = false := by
        rcases List.chain'_cons'.mp hch with ⟨hrel, _⟩
        have := hrel b (by simp)
        by_cases hb : p b
        · exact absurd ⟨hpa, hb⟩ this
        · exact Bool.eq_false_iff.mpr hb
      have ha : a = '-' := hall a (List.mem_cons_self _ _) hpa
      simp only [runSquash, hpa, hpb, if_true, Bool.false_eq_true, if_false, htail, ha,
        ite_self]
    · simp only [runSquash, hpa, Bool.false_eq_true, if_false, htail]

theorem map_id_of_mem {f : α → α} {l : List α} (h : ∀ c ∈ l, f c = c) :
    l.map f = l := by
  induction l with
  | nil => rfl
  | cons a as ih =>
    simp only [List.map_cons, h a (List.mem_cons_self _ _),
      ih (fun c hc => h c (List.mem_cons_of_mem _ hc))]

theorem char_eq_of_toNat_eq {c d : Char} (h : c.toNat = d.toNat) : c = d :=
  Char.ext (UInt32.ext h)

theorem toNat_toLower (c : Char) :
    (Char.toLower c).toNat =
      if 65 ≤ c.toNat ∧ c.toNat ≤ 90 then c.toNat + 32 else c.toNat := by
  unfold Char.toLower
  by_cases h : 65 ≤ c.toNat ∧ c.toNat ≤ 90
  · rw [if_pos h, if_pos h, Char.ofNat, dif_pos (Or.inl (by omega))]
    simp [Char.ofNatAux, Char.toNat, UInt32.toNat]
  · rw [if_neg h, if_neg h]

theorem toLower_not_upper (c : Char) :
    ¬(65 ≤ (Char.toLower c).toNat ∧ (Char.toLower c).toNat ≤ 90) := by
  rw [toNat_toLower]
  by_cases h : 65 ≤ c.toNat ∧ c.toNat ≤ 90
  · rw [if_pos h]
    omega
  · rw [if_neg h]
    omega

theorem toLower_eq_self {c : Char} (h : ¬(65 ≤ c.toNat ∧ c.toNat ≤ 90)) :
    Char.toLower c = c := by
  unfold Char.toLower
  rw [if_neg h]

/-- Character set of slugify output: lowercase ASCII letters, ASCII digits,
underscore and hyphen. -/
def allowedOut (c : Char) : Prop :=
  (97 ≤ c.toNat ∧ c.toNat ≤ 122) ∨ (48 ≤ c.toNat ∧ c.toNat ≤ 57) ∨
    c.toNat = 95 ∨ c.toNat = 45

instance (c : Char) : Decidable (allowedOut c) := by
  unfold allowedOut
  infer_instance

theorem allowed_not_ws {c : Char} (h : allowedOut c) : isWs c = false := by
  simp only [isWs, decide_eq_false_iff_not]
  unfold allowedOut at h
  omega

theorem allowed_not_upper {c : Char} (h : allowedOut c) :
    ¬(65 ≤ c.toNat ∧ c.toNat ≤ 90) := by
  unfold allowedOut at h
  omega

theorem allowed_keep {c : Char} (h : allowedOut c) :
    (isWordChar c || isHyph c) = true := by
  simp only [isWordChar, isHyph, Bool.or_eq_true, decide_eq_true_eq]
  unfold allowedOut at h
  rcases h with h | h | h | h
  · exact Or.inl (Or.inl h)
  · exact Or.inl (Or.inr (Or.inr (Or.inl h)))
  · exact Or.inl (Or.inr (Or.inr (Or.inr h)))
  · exact Or.inr (char_eq_of_toNat_eq (by rw [h]; rfl))

theorem mem_of_head? {l : List α} {c : α} (h : l.head? = some c) : c ∈ l := by
  cases l with
  | nil => cases h
  | cons a as =>
    simp only [List.head?_cons, Option.some.injEq] at h
    subst h
    exact List.mem_cons_self _ _

theorem string_mk_data (t : String) : String.mk t.data = t := rfl

/-- Invariants of the slug pipeline output: every character is a lowercase
letter, digit, underscore or hyphen; no two consecutive hyphens; no leading
hyphen; no trailing hyphen. -/
theorem slug_inv (l : List Char) :
    (∀ c ∈ slugCharsSpec l, allowedOut c) ∧
    (slugCharsSpec l).Chain' (fun a b => ¬(a = '-' ∧ b = '-')) ∧
    (∀ c, (slugCharsSpec l).head? = some c → c ≠ '-') ∧
    (∀ c, (slugCharsSpec l).getLast? = some c → c ≠ '-') := by
  unfold slugCharsSpec stripTrail stripLead keepWord
  refine ⟨?_, ?_, ?_, ?_⟩
  · intro c hc
    have hc1 := mem_of_mem_dropWhile (mem_dropTrail hc)
    rcases mem_runSquash _ _ _ hc1 with ⟨hc3, hH⟩ | hEq
    · have hc4 := List.mem_filter.mp hc3
      have hword : isWordChar c = true := by
        have hor : isWordChar c = true ∨ isHyph c = true := by
          simpa using hc4.2
        rcases hor with h | h
        · exact h
        · rw [h] at hH
          cases hH
      rcases mem_runSquash _ _ _ hc4.1 with ⟨hc5, _⟩ | hEq2
      · rcases List.mem_map.mp hc5 with ⟨d, _, hd⟩
        have hup := toLower_not_upper d
        rw [hd] at hup
        simp only [isWordChar, decide_eq_true_eq] at hword
        unfold allowedOut
        omega
      · rw [hEq2] at hH
        simp [isHyph] at hH
    · rw [hEq]
      unfold allowedOut
      exact Or.inr (Or.inr (Or.inr rfl))
  · have h1 := chain'_runSquash isHyph
      ((runSquash isWs (lowerL (trimL l))).filter (fun c => isWordChar c || isHyph c))
    have h2 := chain'_dropWhile (p := isHyph) h1
    have h3 := chain'_dropTrail (p := isHyph) h2
    refine h3.imp ?_
    intro a b hab hcon
    exact hab ⟨by rw [hcon.1]; rfl, by rw [hcon.2]; rfl⟩
  · intro c hc
    rcases head?_dropTrail isHyph
        ((runSquash isHyph ((runSquash isWs (lowerL (trimL l))).filter
          (fun c => isWordChar c || isHyph c))).dropWhile isHyph) with heq | hemp
    · rw [heq] at hc
      have := head?_dropWhile hc
      simpa only [isHyph, decide_eq_false_iff_not] using this
    · rw [hemp] at hc
      cases hc
  · intro c hc
    have := getLast?_dropTrail hc
    simpa only [isHyph, decide_eq_false_iff_not] using this

/-- Identity of the slug pipeline on lists that already satisfy the output
invariants: every step fixes such a list. -/
theorem slugCharsSpec_eq_self {l : List Char}
    (ha : ∀ c ∈ l, allowedOut c)
    (hc : l.Chain' (fun a b => ¬(a = '-' ∧ b = '-')))
    (hh : ∀ c, l.head? = some c → c ≠ '-')
    (hl : ∀ c, l.getLast? = some c → c ≠ '-') :
    slugCharsSpec l = l := by
  have hnw : ∀ c ∈ l, isWs c = false := fun c h => allowed_not_ws (ha c h)
  have htrim : trimL l = l := by
    unfold trimL
    rw [dropWhile_eq_self_of_head (fun c h => hnw c (mem_of_head? h))]
    exact dropTrail_eq_self (fun c h => hnw c (List.mem_of_getLast?_eq_some h))
  have hlow : lowerL l = l :=
    map_id_of_mem (fun c h => toLower_eq_self (allowed_not_upper (ha c h)))
  have hws : runSquash isWs l = l := by
    refine runSquash_eq_self l ?_ ?_
    · intro c hcl hws
      rw [hnw c hcl] at hws
      cases hws
    · refine List.Pairwise.chain' (List.pairwise_of_forall_mem_list ?_)
      intro a ha2 b _ hcon
      rw [hnw a ha2] at hcon
      exact Bool.false_ne_true hcon.1
  have hkeep : l.filter (fun c => isWordChar c || isHyph c) = l :=
    List.filter_eq_self.mpr (fun c h => allowed_keep (ha c h))
  have hhy : runSquash isHyph l = l := by
    refine runSquash_eq_self l ?_ ?_
    · intro c _ hcH
      simpa only [isHyph, decide_eq_true_eq] using hcH
    · refine hc.imp ?_
      intro a b hab hcon
      refine hab ⟨?_, ?_⟩
      · simpa only [isHyph, decide_eq_true_eq] using hcon.1
      · simpa only [isHyph, decide_eq_true_eq] using hcon.2
  have hlead : l.dropWhile isHyph = l := by
    refine dropWhile_eq_self_of_head ?_
    intro c h
    simp only [isHyph, decide_eq_false_iff_not]
    exact hh c h
  have htraild : dropTrail isHyph l = l := by
    refine dropTrail_eq_self ?_
    intro c h
    simp only [isHyph, decide_eq_false_iff_not]
    exact hl c h
  unfold slugCharsSpec stripTrail stripLead keepWord
  rw [htrim, hlow, hws, hkeep, hhy, hlead, htraild]

theorem slugify_of_ne {s : String} (h : s.isEmpty = false) :
    slugify s = String.mk (slugChars s.data) := by
  unfold slugify
  rw [h]
  simp

theorem slugify_data_of_ne {s : String} (h : s.isEmpty = false) :
    (slugify s).data = slugCharsSpec s.data := by
  simp [slugify, h, slugChars_eq_spec]

/-- Output invariants of slugify as a whole, at the string level. -/
theorem slug_inv_string (s : String) :
    (∀ c ∈ (slugify s).data, allowedOut c) ∧
    (slugify s).data.Chain' (fun a b => ¬(a = '-' ∧ b = '-')) ∧
    (∀ c, (slugify s).data.head? = some c → c ≠ '-') ∧
    (∀ c, (slugify s).data.getLast? = some c → c ≠ '-') := by
  by_cases he : s.isEmpty
  · have hdata : (slugify s).data = [] := by simp [slugify, he]
    rw [hdata]
    refine ⟨by simp, by simp, ?_, ?_⟩
    · intro c hcb
      cases hcb
    · intro c hcb
      cases hcb
  · rw [slugify_data_of_ne (Bool.eq_false_iff.mpr he)]
    exact slug_inv s.data

/-- C2: slugify returns the empty string on falsy input (absent title or
empty string) and otherwise applies exactly, in order: trim, lowercase,
whitespace runs to one hyphen, removal of characters that are neither word
characters nor hyphens, collapse of hyphen runs, strip of leading hyphens,
strip of trailing hyphens — the source pipeline agrees everywhere with the
run-based pipeline slugifySpec worded as in the spec. -/
theorem slugify_matches_spec :
    slugifyOpt none = "" ∧ slugify "" = "" ∧
    ∀ s : String, slugify s = slugifySpec s :=
  ⟨rfl, rfl, slugify_eq_slugifySpec⟩

/-- C6: the four concrete slugify examples of the spec. -/
theorem slugify_examples :
    slugify "" = "" ∧ slugify "  Hello World!  " = "hello-world" ∧
    slugify "A--B" = "a-b" ∧ slugify "-lead-trail-" = "lead-trail" := by
  refine ⟨rfl, ?_, ?_, ?_⟩
  · rw [slugify_eq_slugifySpec]
    decide
  · rw [slugify_eq_slugifySpec]
    decide
  · rw [slugify_eq_slugifySpec]
    decide

/-- C7: slugify is idempotent on every input string. -/
theorem slugify_idempotent (s : String) : slugify (slugify s) = slugify s := by
  by_cases h : slugify s = ""
  · rw [h]
    rfl
  · have hne : (slugify s).isEmpty = false :=
      Bool.eq_false_iff.mpr (fun ht => h ((String.isEmpty_iff _).mp ht))
    rcases slug_inv_string s with ⟨h1, h2, h3, h4⟩
    calc slugify (slugify s)
        = String.mk (slugChars (slugify s).data) := slugify_of_ne hne
      _ = String.mk (slugCharsSpec (slugify s).data) := by rw [slugChars_eq_spec]
      _ = String.mk ((slugify s).data) := by rw [slugCharsSpec_eq_self h1 h2 h3 h4]
      _ = slugify s := string_mk_data _

/-- C9: every slugify output consists only of lowercase ASCII letters,
digits, underscore and hyphen (hence has no whitespace and no uppercase
letter), has no two consecutive hyphens, and neither starts nor ends with
a hyphen. -/
theorem slugify_output_invariants (s : String) :
    (∀ c ∈ (slugify s).data,
      allowedOut c ∧ isWs c = false ∧ ¬(65 ≤ c.toNat ∧ c.toNat ≤ 90)) ∧
    (slugify s).data.Chain' (fun a b => ¬(a = '-' ∧ b = '-')) ∧
    (∀ c, (slugify s).data.head? = some c → c ≠ '-') ∧
    (∀ c, (slugify s).data.getLast? = some c → c ≠ '-') := by
  rcases slug_inv_string s with ⟨h1, h2, h3, h4⟩
  exact ⟨fun c hcm =>
    ⟨h1 c hcm, allowed_not_ws (h1 c hcm), allowed_not_upper (h1 c hcm)⟩, h2, h3, h4⟩

/-- C9 witness: the invariants instantiated at a concrete input. -/
theorem slugify_output_invariants_witness :
    (∀ c ∈ (slugify "  Hello World!  ").data,
      allowedOut c ∧ isWs c = false ∧ ¬(65 ≤ c.toNat ∧ c.toNat ≤ 90)) ∧
    (slugify "  Hello World!  ").data.Chain' (fun a b => ¬(a = '-' ∧ b = '-')) ∧
    (∀ c, (slugify "  Hello World!  ").data.head? = some c → c ≠ '-') ∧
    (∀ c, (slugify "  Hello World!  ").data.getLast? = some c → c ≠ '-') :=
  slugify_output_invariants "  Hello World!  "

/-!
Data model and route handlers.  A row of the posts or drafts table carries
the four columns of the schema; the database state is the pair of tables.
Each handler executes one SQL statement: the statement semantics
(orderByDateDesc, insertRow, updateWhere, deleteWhere) model SELECT with
ORDER BY created_date DESC, INSERT RETURNING *, UPDATE WHERE slug
RETURNING * and DELETE WHERE slug RETURNING *.  A thrown query error is
injected as an optional driver message (some m); each handler's try/catch
turns it into its 500 response, exactly as in src/index.ts.
-/

/-- Row of the posts or the drafts table. -/
structure Row where
  slug : String
  title : String
  content : String
  created_date : Nat
deriving DecidableEq

/-- Database state: the posts table and the drafts table. -/
structure DB where
  posts : List Row
  drafts : List Row
deriving DecidableEq

/-- JSON bodies produced by the handlers. -/
inductive Body where
  | rows (rs : List Row)
  | row (r : Row)
  | errObj (error : String)
  | failObj (error message : String)
  | msgObj (message : String)
deriving DecidableEq

/-- HTTP response: status code and optional JSON body; c.status(500) alone
sends no body. -/
structure Response where
  status : Nat
  body : Option Body
deriving DecidableEq

/-- SELECT * FROM t ORDER BY created_date DESC. -/
def orderByDateDesc (t : List Row) : List Row :=
  t.mergeSort (fun a b => decide (b.created_date ≤ a.created_date))

/-- INSERT INTO t (slug, title, content) VALUES ($1,$2,$3) RETURNING *;
created_date is assigned by the database, modelled by the parameter now. -/
def insertRow (t : List Row) (slug title content : String) (now : Nat) :
    List Row × Row :=
  let r : Row := { slug := slug, title := title, content := content, created_date := now }
  (t ++ [r], r)

/-- UPDATE t SET title = $1, content = $2 WHERE slug = $3 RETURNING *:
the new table and the returned updated rows. -/
def updateWhere (t : List Row) (k title content : String) : List Row × List Row :=
  let t2 := t.map (fun r =>
    if r.slug = k then { r with title := title, content := content } else r)
  (t2, t2.filter (fun r => r.slug == k))

/-- DELETE FROM t WHERE slug = $1 RETURNING *: the new table and the
returned deleted rows. -/
def deleteWhere (t : List Row) (k : String) : List Row × List Row :=
  (t.filter (fun r => r.slug != k), t.filter (fun r => r.slug == k))

/-- GET /api/posts (src/index.ts lines 70-82). -/
def getPosts (db : DB) : Option String → Response × DB
  | some _ => ({ status := 500, body := none }, db)
  | none => ({ status := 200, body := some (Body.rows (orderByDateDesc db.posts)) }, db)

/-- POST /api/posts (src/index.ts lines 84-99): the title may be absent in
the request body (undefined, falsy); a missing value is inserted as the
empty string here since no claim inspects a stored null title. -/
def postPosts (db : DB) (title : Option String) (content : String) (now : Nat) :
    Option String → Response × DB
  | some _ => ({ status := 500, body := none }, db)
  | none =>
    let res := insertRow db.posts (slugifyOpt title) (title.getD "") content now
    ({ status := 201, body := some (Body.row res.2) }, { db with posts := res.1 })

/-- PUT /api/posts/:slug (src/index.ts lines 101-123). -/
def putPost (db : DB) (k title content : String) : Option String → Response × DB
  | some m =>
    ({ status := 500, body := some (Body.failObj "Failed to update post" m) }, db)
  | none =>
    let res := updateWhere db.posts k title content
    match res.2 with
    | [] => ({ status := 404, body := some (Body.errObj "Post not found") },
             { db with posts := res.1 })
    | r :: _ => ({ status := 201, body := some (Body.row r) },
                 { db with posts := res.1 })

/-- DELETE /api/posts/:slug (src/index.ts lines 125-148). -/
def deletePost (db : DB) (k : String) : Option String → Response × DB
  | some m =>
    ({ status := 500, body := some (Body.failObj "Failed to delete post" m) }, db)
  | none =>
    let res := deleteWhere db.posts k
    match res.2 with
    | [] => ({ status := 404, body := some (Body.errObj "Post not found") },
             { db with posts := res.1 })
    | _ :: _ =>
      ({ status := 201,
         body := some (Body.msgObj ("Post with slug " ++ k ++ " deleted successfully")) },
       { db with posts := res.1 })

/-- GET /api/drafts (src/index.ts lines 150-162). -/
def getDrafts (db : DB) : Option String → Response × DB
  | some _ => ({ status := 500, body := none }, db)
  | none => ({ status := 200, body := some (Body.rows (orderByDateDesc db.drafts)) }, db)

/-- POST /api/drafts (src/index.ts lines 164-179). -/
def postDrafts (db : DB) (title : Option String) (content : String) (now : Nat) :
    Option String → Response × DB
  | some _ => ({ status := 500, body := none }, db)
  | none =>
    let res := insertRow db.drafts (slugifyOpt title) (title.getD "") content now
    ({ status := 201, body := some (Body.row res.2) }, { db with drafts := res.1 })

/-- PUT /api/drafts/:slug (src/index.ts lines 181-203). -/
def putDraft (db : DB) (k title content : String) : Option String → Response × DB
  | some m =>
    ({ status := 500, body := some (Body.failObj "Failed to update draft" m) }, db)
  | none =>
    let res := updateWhere db.drafts k title content
    match res.2 with
    | [] => ({ status := 404, body := some (Body.errObj "Draft not found") },
             { db with drafts := res.1 })
    | r :: _ => ({ status := 201, body := some (Body.row r) },
                 { db with drafts := res.1 })

/-- DELETE /api/drafts/:slug (src/index.ts lines 205-228). -/
def deleteDraft (db : DB) (k : String) : Option String → Response × DB
  | some m =>
    ({ status := 500, body := some (Body.failObj "Failed to delete draft" m) }, db)
  | none =>
    let res := deleteWhere db.drafts k
    match res.2 with
    | [] => ({ status := 404, body := some (Body.errObj "Draft not found") },
             { db with drafts := res.1 })
    | _ :: _ =>
      ({ status := 201,
         body := some (Body.msgObj ("Draft with slug " ++ k ++ " deleted successfully")) },
       { db with drafts := res.1 })

/-- Database client handle, attached to request-scoped state by the
middleware via c.set and read by the handlers via c.get. -/
structure Client where
  id : Nat
deriving DecidableEq

/-- Request routed to one of the eight handlers, with its inputs.  The
outcome of the single query the handler will run is passed separately. -/
inductive Req where
  | listPosts
  | createPost (title : Option String) (content : String) (now : Nat)
  | updatePost (slug title content : String)
  | removePost (slug : String)
  | listDrafts
  | createDraft (title : Option String) (content : String) (now : Nat)
  | updateDraft (slug title content : String)
  | removeDraft (slug : String)

/-- Dispatch of a request to its route handler.  Every handler wraps its
query in try/catch and always returns a response, so dispatch is total:
err = none means the query succeeds, err = some m that the driver throws
with message m. -/
def handle (req : Req) (db : DB) (err : Option String) : Response × DB :=
  match req with
  | Req.listPosts => getPosts db err
  | Req.createPost title content now => postPosts db title content now err
  | Req.updatePost slug title content => putPost db slug title content err
  | Req.removePost slug => deletePost db slug err
  | Req.listDrafts => getDrafts db err
  | Req.createDraft title content now => postDrafts db title content now err
  | Req.updateDraft slug title content => putDraft db slug title content err
  | Req.removeDraft slug => deleteDraft db slug err

/-- Database middleware of src/index.ts lines 63-68: the acquired client is
set in request-scoped state and handed to the downstream handler; after
await next() resolves, disconnectFromDB runs.  Because the source has no
try/finally, a rejected next() propagates and the disconnect line is
skipped: the returned Bool records whether disconnectFromDB ran. -/
def dbMiddleware {ε : Type} (client : Client) (next : Client → Except ε Response) :
    Except ε Response × Bool :=
  match next client with
  | Except.ok r => (Except.ok r, true)
  | Except.error e => (Except.error e, false)

/-- C1: for every request to one of the eight routes, whether its query
succeeds (err = none) or fails (err = some m), the middleware acquires the
client, hands it to the downstream handler, the handler completes with a
response (its try/catch turns a query failure into a 500 response rather
than a rejection), and disconnectFromDB runs afterwards: the connection is
released on every request. -/
theorem connection_released (client : Client) (req : Req) (db : DB)
    (err : Option String) :
    dbMiddleware (ε := Unit) client (fun _ => Except.ok (handle req db err).1) =
      (Except.ok (handle req db err).1, true) :=
  rfl

/-- C4: when the query throws with driver message m, the list and create
handlers respond with a bare 500 and no body, while the update and delete
handlers respond 500 with a fixed generic error field and the driver
message m in the message field; no response carries anything else. -/
theorem query_error_responses (db : DB) (m : String) (k title content : String)
    (topt : Option String) (now : Nat) :
    getPosts db (some m) = ({ status := 500, body := none }, db) ∧
    postPosts db topt content now (some m) = ({ status := 500, body := none }, db) ∧
    putPost db k title content (some m) =
      ({ status := 500, body := some (Body.failObj "Failed to update post" m) }, db) ∧
    deletePost db k (some m) =
      ({ status := 500, body := some (Body.failObj "Failed to delete post" m) }, db) ∧
    getDrafts db (some m) = ({ status := 500, body := none }, db) ∧
    postDrafts db topt content now (some m) = ({ status := 500, body := none }, db) ∧
    putDraft db k title content (some m) =
      ({ status := 500, body := some (Body.failObj "Failed to update draft" m) }, db) ∧
    deleteDraft db k (some m) =
      ({ status := 500, body := some (Body.failObj "Failed to delete draft" m) }, db) :=
  ⟨rfl, rfl, rfl, rfl, rfl, rfl, rfl, rfl⟩

theorem updateWhere_no_match {t : List Row} {k : String} (h : ∀ r ∈ t, r.slug ≠ k)
    (title content : String) : updateWhere t k title content = (t, []) := by
  have hmap : t.map (fun r =>
      if r.slug = k then { r with title := title, content := content } else r) = t :=
    map_id_of_mem (fun r hr => if_neg (h r hr))
  have hfil : t.filter (fun r => r.slug == k) = [] :=
    List.filter_eq_nil_iff.mpr (fun r hr => by simp [h r hr])
  simp only [updateWhere]
  rw [hmap, hfil]

theorem deleteWhere_no_match {t : List Row} {k : String} (h : ∀ r ∈ t, r.slug ≠ k) :
    deleteWhere t k = (t, []) := by
  have h1 : t.filter (fun r => r.slug != k) = t :=
    List.filter_eq_self.mpr (fun r hr => by simp [h r hr])
  have h2 : t.filter (fun r => r.slug == k) = [] :=
    List.filter_eq_nil_iff.mpr (fun r hr => by simp [h r hr])
  simp only [deleteWhere]
  rw [h1, h2]

/-- C3: a PUT whose slug matches no existing row returns 404 with the
resource-specific not-found body and leaves both tables exactly as they
were. -/
theorem put_missing_slug_404 (db : DB) (k title content : String)
    (hp : ∀ r ∈ db.posts, r.slug ≠ k) (hd : ∀ r ∈ db.drafts, r.slug ≠ k) :
    putPost db k title content none =
      ({ status := 404, body := some (Body.errObj "Post not found") }, db) ∧
    putDraft db k title content none =
      ({ status := 404, body := some (Body.errObj "Draft not found") }, db) := by
  constructor
  · simp only [putPost, updateWhere_no_match hp title content]
  · simp only [putDraft, updateWhere_no_match hd title content]

/-- Concrete database used to instantiate the handler theorems. -/
def dbW : DB :=
  { posts := [{ slug := "a", title := "T", content := "C", created_date := 5 },
              { slug := "b", title := "U", content := "D", created_date := 3 }],
    drafts := [{ slug := "a", title := "V", content := "E", created_date := 7 }] }

/-- C3 witness: the 404 result and untouched database at a concrete input. -/
theorem put_missing_slug_404_witness :
    putPost dbW "zzz" "nt" "nc" none =
      ({ status := 404, body := some (Body.errObj "Post not found") }, dbW) ∧
    putDraft dbW "zzz" "nt" "nc" none =
      ({ status := 404, body := some (Body.errObj "Draft not found") }, dbW) :=
  put_missing_slug_404 dbW "zzz" "nt" "nc" (by decide) (by decide)

theorem updateWhere_ret_of_match {t : List Row} {k title content : String}
    (h : ∃ r ∈ t, r.slug = k) : (updateWhere t k title content).2 ≠ [] := by
  obtain ⟨r, hr, hk⟩ := h
  intro hnil
  have hmem : ({ r with title := title, content := content } : Row) ∈
      (updateWhere t k title content).2 := by
    simp only [updateWhere]
    refine List.mem_filter.mpr ⟨?_, ?_⟩
    · exact List.mem_map.mpr ⟨r, hr, by rw [if_pos hk]⟩
    · simp [hk]
  rw [hnil] at hmem
  cases hmem

/-- C5: for each route separately, a successful PUT (slug present in that
route's table) answers 201 and overwrites only the title and content
columns of the rows whose slug equals the path parameter: every row keeps
its slug and created_date, rows with a different slug are untouched, and
the other table is untouched — the slug column is never recomputed from the
new title. -/
theorem put_updates_only_title_content (db : DB) (k title content : String) :
    ((∃ r ∈ db.posts, r.slug = k) →
      (putPost db k title content none).1.status = 201 ∧
      (putPost db k title content none).2.drafts = db.drafts ∧
      List.Forall₂ (fun old new =>
          new.slug = old.slug ∧ new.created_date = old.created_date ∧
          (old.slug = k → new.title = title ∧ new.content = content) ∧
          (old.slug ≠ k → new = old))
        db.posts (putPost db k title content none).2.posts) ∧
    ((∃ r ∈ db.drafts, r.slug = k) →
      (putDraft db k title content none).1.status = 201 ∧
      (putDraft db k title content none).2.posts = db.posts ∧
      List.Forall₂ (fun old new =>
          new.slug = old.slug ∧ new.created_date = old.created_date ∧
          (old.slug = k → new.title = title ∧ new.content = content) ∧
          (old.slug ≠ k → new = old))
        db.drafts (putDraft db k title content none).2.drafts) := by
  have hfor : ∀ t : List Row,
      List.Forall₂ (fun old new =>
          new.slug = old.slug ∧ new.created_date = old.created_date ∧
          (old.slug = k → new.title = title ∧ new.content = content) ∧
          (old.slug ≠ k → new = old))
        t (t.map (fun r =>
          if r.slug = k then { r with title := title, content := content } else r)) := by
    intro t
    rw [List.forall₂_map_right_iff, List.forall₂_same]
    intro x hx
    by_cases hxk : x.slug = k
    · rw [if_pos hxk]
      exact ⟨rfl, rfl, fun _ => ⟨rfl, rfl⟩, fun hne => absurd hxk hne⟩
    · rw [if_neg hxk]
      exact ⟨rfl, rfl, fun hc => absurd hc hxk, fun _ => rfl⟩
  constructor
  · intro hp
    rcases hret : (updateWhere db.posts k title content).2 with _ | ⟨r, rest⟩
    · exact absurd hret (updateWhere_ret_of_match hp)
    · refine ⟨?_, ?_, ?_⟩
      · simp only [putPost, hret]
      · simp only [putPost, hret]
      · simp only [putPost, hret]
        exact hfor db.posts
  · intro hd
    rcases hret : (updateWhere db.drafts k title content).2 with _ | ⟨r, rest⟩
    · exact absurd hret (updateWhere_ret_of_match hd)
    · refine ⟨?_, ?_, ?_⟩
      · simp only [putDraft, hret]
      · simp only [putDraft, hret]
      · simp only [putDraft, hret]
        exact hfor db.drafts

/-- Concrete database whose drafts table is empty, used to show the posts
route succeeds independently of the drafts table. -/
def dbW5 : DB :=
  { posts := [{ slug := "a", title := "T", content := "C", created_date := 5 }],
    drafts := [] }

/-- C5 witness: the 201 status for a posts update at a database whose
drafts table is empty, and for a drafts update at a database containing
the slug in its drafts table. -/
theorem put_updates_only_title_content_witness :
    (putPost dbW5 "a" "NT" "NC" none).1.status = 201 ∧
    (putDraft dbW "a" "NT" "NC" none).1.status = 201 :=
  ⟨((put_updates_only_title_content dbW5 "a" "NT" "NC").1 (by decide)).1,
   ((put_updates_only_title_content dbW "a" "NT" "NC").2 (by decide)).1⟩

theorem deleteWhere_ret_of_match {t : List Row} {k : String}
    (h : ∃ r ∈ t, r.slug = k) : (deleteWhere t k).2 ≠ [] := by
  obtain ⟨r, hr, hk⟩ := h
  intro hnil
  have hmem : r ∈ (deleteWhere t k).2 := by
    simp only [deleteWhere]
    exact List.mem_filter.mpr ⟨hr, by simp [hk]⟩
  rw [hnil] at hmem
  cases hmem

/-- C8: deleting an existing slug answers 201 with the message naming that
exact slug and removes exactly the rows with that slug: no remaining row
carries it, a subsequent list response no longer contains it, every row
with a different slug survives, and the other table is untouched; deleting
a slug matching no row answers 404 with the not-found body and leaves the
database unchanged — for both resources. -/
theorem delete_semantics (db : DB) (k : String) :
    ((∃ r ∈ db.posts, r.slug = k) →
      (deletePost db k none).1 =
        { status := 201,
          body := some (Body.msgObj ("Post with slug " ++ k ++ " deleted successfully")) } ∧
      (∀ r ∈ (deletePost db k none).2.posts, r.slug ≠ k) ∧
      (∀ rs, (getPosts (deletePost db k none).2 none).1.body = some (Body.rows rs) →
        ∀ r ∈ rs, r.slug ≠ k) ∧
      (∀ r ∈ db.posts, r.slug ≠ k → r ∈ (deletePost db k none).2.posts) ∧
      (deletePost db k none).2.drafts = db.drafts) ∧
    ((∀ r ∈ db.posts, r.slug ≠ k) →
      deletePost db k none =
        ({ status := 404, body := some (Body.errObj "Post not found") }, db)) ∧
    ((∃ r ∈ db.drafts, r.slug = k) →
      (deleteDraft db k none).1 =
        { status := 201,
          body := some (Body.msgObj ("Draft with slug " ++ k ++ " deleted successfully")) } ∧
      (∀ r ∈ (deleteDraft db k none).2.drafts, r.slug ≠ k) ∧
      (∀ rs, (getDrafts (deleteDraft db k none).2 none).1.body = some (Body.rows rs) →
        ∀ r ∈ rs, r.slug ≠ k) ∧
      (∀ r ∈ db.drafts, r.slug ≠ k → r ∈ (deleteDraft db k none).2.drafts) ∧
      (deleteDraft db k none).2.posts = db.posts) ∧
    ((∀ r ∈ db.drafts, r.slug ≠ k) →
      deleteDraft db k none =
        ({ status := 404, body := some (Body.errObj "Draft not found") }, db)) := by
  refine ⟨?_, ?_, ?_, ?_⟩
  · intro h
    rcases hret : (deleteWhere db.posts k).2 with _ | ⟨r, rest⟩
    · exact absurd hret (deleteWhere_ret_of_match h)
    · have hposts : (deletePost db k none).2.posts =
          db.posts.filter (fun r => r.slug != k) := by
        simp only [deletePost, hret]
        rfl
      have hnomem : ∀ r2 ∈ (deletePost db k none).2.posts, r2.slug ≠ k := by
        intro r2 hr2
        rw [hposts] at hr2
        have := (List.mem_filter.mp hr2).2
        simpa using this
      refine ⟨?_, hnomem, ?_, ?_, ?_⟩
      · simp only [deletePost, hret]
      · intro rs hrs r2 hr2
        have hbody : (getPosts (deletePost db k none).2 none).1.body =
            some (Body.rows (orderByDateDesc (deletePost db k none).2.posts)) := rfl
        rw [hbody] at hrs
        simp only [Option.some.injEq, Body.rows.injEq] at hrs
        rw [← hrs] at hr2
        simp only [orderByDateDesc] at hr2
        exact hnomem r2 (List.mem_mergeSort.mp hr2)
      · intro r2 hr2 hne
        rw [hposts]
        exact List.mem_filter.mpr ⟨hr2, by simp [hne]⟩
      · simp only [deletePost, hret]
  · intro h
    simp only [deletePost, deleteWhere_no_match h]
  · intro h
    rcases hret : (deleteWhere db.drafts k).2 with _ | ⟨r, rest⟩
    · exact absurd hret (deleteWhere_ret_of_match h)
    · have hdrafts : (deleteDraft db k none).2.drafts =
          db.drafts.filter (fun r => r.slug != k) := by
        simp only [deleteDraft, hret]
        rfl
      have hnomem : ∀ r2 ∈ (deleteDraft db k none).2.drafts, r2.slug ≠ k := by
        intro r2 hr2
        rw [hdrafts] at hr2
        have := (List.mem_filter.mp hr2).2
        simpa using this
      refine ⟨?_, hnomem, ?_, ?_, ?_⟩
      · simp only [deleteDraft, hret]
      · intro rs hrs r2 hr2
        have hbody : (getDrafts (deleteDraft db k none).2 none).1.body =
            some (Body.rows (orderByDateDesc (deleteDraft db k none).2.drafts)) := rfl
        rw [hbody] at hrs
        simp only [Option.some.injEq, Body.rows.injEq] at hrs
        rw [← hrs] at hr2
        simp only [orderByDateDesc] at hr2
        exact hnomem r2 (List.mem_mergeSort.mp hr2)
      · intro r2 hr2 hne
        rw [hdrafts]
        exact List.mem_filter.mpr ⟨hr2, by simp [hne]⟩
      · simp only [deleteDraft, hret]
  · intro h
    simp only [deleteDraft, deleteWhere_no_match h]

/-- C8 witness: the 201 deletion message at an existing slug and the 404
result at a missing slug, at a concrete database. -/
theorem delete_semantics_witness :
    (deletePost dbW "b" none).1 =
      { status := 201,
        body := some (Body.msgObj ("Post with slug " ++ "b" ++ " deleted successfully")) } ∧
    deleteDraft dbW "zzz" none =
      ({ status := 404, body := some (Body.errObj "Draft not found") }, dbW) :=
  ⟨((delete_semantics dbW "b").1 (by decide)).1,
   (delete_semantics dbW "zzz").2.2.2 (by decide)⟩

/-- C10: the create handlers perform no presence validation: with a missing
title (undefined or null) or an empty title the request is never rejected
with a 4xx status (whatever the query outcome), slugify yields the empty
string for it, and the INSERT is attempted with that empty slug, appending
a row whose slug is empty when the query succeeds. -/
theorem create_no_validation (db : DB) (content : String) (now : Nat) :
    (∀ err : Option String,
      ¬(400 ≤ (postPosts db none content now err).1.status ∧
        (postPosts db none content now err).1.status < 500)) ∧
    (∀ err : Option String,
      ¬(400 ≤ (postDrafts db none content now err).1.status ∧
        (postDrafts db none content now err).1.status < 500)) ∧
    slugifyOpt none = "" ∧ slugifyOpt (some "") = "" ∧
    (postPosts db none content now none).1.status = 201 ∧
    (postPosts db none content now none).2.posts =
      db.posts ++ [{ slug := "", title := "", content := content, created_date := now }] ∧
    (postPosts db (some "") content now none).2.posts =
      db.posts ++ [{ slug := "", title := "", content := content, created_date := now }] ∧
    (postDrafts db none content now none).1.status = 201 ∧
    (postDrafts db none content now none).2.drafts =
      db.drafts ++ [{ slug := "", title := "", content := content, created_date := now }] := by
  refine ⟨?_, ?_, rfl, rfl, rfl, rfl, rfl, rfl, rfl⟩
  · intro err
    cases err with
    | none =>
      intro hcon
      rw [show (postPosts db none content now none).1.status = 201 from rfl] at hcon
      omega
    | some m =>
      intro hcon
      rw [show (postPosts db none content now (some m)).1.status = 500 from rfl] at hcon
      omega
  · intro err
    cases err with
    | none =>
      intro hcon
      rw [show (postDrafts db none content now none).1.status = 201 from rfl] at hcon
      omega
    | some m =>
      intro hcon
      rw [show (postDrafts db none content now (some m)).1.status = 500 from rfl] at hcon
      omega

/-- C10 witness: no 4xx and the empty-slug insert at a concrete input. -/
theorem create_no_validation_witness :
    ¬(400 ≤ (postPosts dbW none "c" 0 none).1.status ∧
      (postPosts dbW none "c" 0 none).1.status < 500) ∧
    (postPosts dbW none "c" 0 none).1.status = 201 ∧
    (postPosts dbW none "c" 0 none).2.posts =
      dbW.posts ++ [{ slug := "", title := "", content := "c", created_date := 0 }] :=
  ⟨(create_no_validation dbW "c" 0).1 none,
   (create_no_validation dbW "c" 0).2.2.2.2.1,
   (create_no_validation dbW "c" 0).2.2.2.2.2.1⟩
